import Mathlib

/-!
Verification of the URL fetch service core: the per-client admission limiter
(package ratelimit), the result store and orchestrator (package service), and
the cleanup sweep. Go machine integers are modelled as `Int`, timestamps and
durations as `Int` nanoseconds (Go `time.Time` / `time.Duration` arithmetic is
integer nanosecond arithmetic). The `float64` token-refill expression
`int(elapsed.Seconds() * float64(burst) / windowSeconds)` is modelled exactly
over the rationals: the conversion factors of `Seconds()` cancel, leaving
`(elapsed * burst) / window` truncated toward zero (`Int.tdiv`), which is the
value Go computes up to `float64` rounding.
-/

/-- Per admission-key state, mirroring `ratelimit.Visitor`. -/
structure Visitor where
  tokens : Int
  lastSeen : Int
  windowStart : Int
  requestCount : Int
deriving DecidableEq

/-- The limiter, mirroring `ratelimit.RateLimiter`; the Go map
`map[string]*Visitor` is modelled as an association list. -/
structure RateLimiter where
  visitors : List (String × Visitor)
  rate : Int
  burst : Int
  window : Int
deriving DecidableEq

/-- Lookup in the visitor map (`rl.visitors[ip]`). -/
def lookupVisitor : List (String × Visitor) → String → Option Visitor
  | [], _ => none
  | (k, v) :: rest, ip => if k = ip then some v else lookupVisitor rest ip

/-- Map update (`rl.visitors[ip] = v` or in-place mutation through the pointer). -/
def setVisitor : List (String × Visitor) → String → Visitor → List (String × Visitor)
  | [], ip, v => [(ip, v)]
  | (k, w) :: rest, ip, v =>
    if k = ip then (ip, v) :: rest else (k, w) :: setVisitor rest ip v

/-- The `min` helper the ratelimit package defines for `int`. -/
def minInt (a b : Int) : Int :=
  if a < b then a else b

/-- The token refill amount: `int(elapsed.Seconds() * float64(burst) / windowSeconds)`
when `windowSeconds > 0`, else the full burst (the divide-by-zero guard). -/
def RateLimiter.tokensToAdd (rl : RateLimiter) (elapsed : Int) : Int :=
  if rl.window > 0 then (elapsed * rl.burst).tdiv rl.window else rl.burst

/-- `RateLimiter.Allow`, with `time.Now()` passed explicitly as `now`.
Returns the decision and the post-state. -/
def RateLimiter.Allow (rl : RateLimiter) (ip : String) (now : Int) : Bool × RateLimiter :=
  match lookupVisitor rl.visitors ip with
  | none =>
      (true, { rl with visitors := setVisitor rl.visitors ip ⟨rl.burst - 1, now, now, 1⟩ })
  | some v =>
      if now - v.windowStart > rl.window then
        (true, { rl with visitors := setVisitor rl.visitors ip ⟨rl.burst - 1, now, now, 1⟩ })
      else if v.requestCount ≥ rl.rate then
        (false, { rl with visitors := setVisitor rl.visitors ip { v with lastSeen := now } })
      else
        let newTokens := minInt (v.tokens + rl.tokensToAdd (now - v.windowStart)) rl.burst
        if newTokens > 0 then
          let v' : Visitor := ⟨newTokens - 1, now, v.windowStart, v.requestCount + 1⟩
          (true, { rl with visitors := setVisitor rl.visitors ip v' })
        else
          let v' : Visitor := ⟨newTokens, now, v.windowStart, v.requestCount⟩
          (false, { rl with visitors := setVisitor rl.visitors ip v' })

/-- The sequence of `Allow` decisions for one key at the given call times. -/
def allowTrace : RateLimiter → String → List Int → List Bool
  | _, _, [] => []
  | rl, ip, t :: ts =>
    let p := rl.Allow ip t
    p.1 :: allowTrace p.2 ip ts

lemma lookupVisitor_setVisitor (vs : List (String × Visitor)) (ip : String) (v : Visitor) :
    lookupVisitor (setVisitor vs ip v) ip = some v := by
  induction vs with
  | nil => simp [setVisitor, lookupVisitor]
  | cons hd tl ih =>
    obtain ⟨k, w⟩ := hd
    by_cases h : k = ip
    · simp [setVisitor, lookupVisitor, h]
    · simp [setVisitor, lookupVisitor, h, ih]

/-- C10: the first `Allow` call for a key with no existing visitor returns true
unconditionally — for every configuration of rate, burst and window, including
rate = 0 and burst = 0 — creating the visitor with `tokens = burst - 1`
(negative when burst = 0) and `requestCount = 1`; neither the per-window rate
cap nor token availability is consulted. -/
theorem Allow_first_call (rl : RateLimiter) (ip : String) (now : Int)
    (h : lookupVisitor rl.visitors ip = none) :
    rl.Allow ip now =
      (true, { rl with visitors := setVisitor rl.visitors ip ⟨rl.burst - 1, now, now, 1⟩ }) := by
  simp [RateLimiter.Allow, h]

/-- Witness for C10 at rate = 0, burst = 0: the call is allowed and the created
visitor has tokens = -1, requestCount = 1. -/
theorem Allow_first_call_witness :
    RateLimiter.Allow ⟨[], 0, 0, 1000000000⟩ "a" 5 =
      (true, ⟨[("a", ⟨-1, 5, 5, 1⟩)], 0, 0, 1000000000⟩) := by
  have h := Allow_first_call ⟨[], 0, 0, 1000000000⟩ "a" 5 rfl
  simpa [setVisitor] using h

/-- C1 counterexample: with rate = 2, burst = 1 (both ≥ 1) and window = 1s, a
key issuing R = 2 calls at the same instant inside one window is denied on the
second call (token exhaustion: tokens = 0 and the refill adds 0 at elapsed 0),
refuting "allowed on all R of them"; the claim predicts [true, true]. -/
theorem Allow_rate_window_counterexample :
    allowTrace ⟨[], 2, 1, 1000000000⟩ "client" [0, 0] = [true, false] := by
  decide

/-- One URL's lifecycle record, mirroring `models.FetchResult`. Omitted fields
in a Go struct literal take their zero values, mirrored here as defaults. -/
structure FetchResult where
  URL : String := ""
  Status : String := ""
  Content : String := ""
  ContentLength : Int := 0
  StatusCode : Int := 0
  Error : String := ""
  FetchedAt : Int := 0
  CreatedAt : Int := 0
  Duration : String := ""
  RedirectCount : Int := 0
  FinalURL : String := ""
deriving DecidableEq

/-- Cleanup statistics, mirroring `models.CleanupStats`. -/
structure CleanupStats where
  LastCleanup : Int := 0
  TotalCleaned : Int := 0
  CleanupCount : Int := 0
  ResultsInMemory : Int := 0
deriving DecidableEq

/-- Service configuration, mirroring `service.Config`. -/
structure Config where
  FetchTimeout : Int
  MaxRedirects : Int
  MaxContentSize : Int
  ResultTTL : Int
  CleanupInterval : Int
  MaxResultsInMemory : Int
deriving DecidableEq

/-- The mutable store state of `service.FetchService` (the HTTP client, ticker
and channels are runtime plumbing with no bearing on the store's data). -/
structure FetchService where
  results : List FetchResult
  lastSubmission : Int
  cleanupStats : CleanupStats
  config : Config
deriving DecidableEq

/-- `NewFetchService`: empty result slice, zero stats. -/
def NewFetchService (cfg : Config) : FetchService :=
  { results := [], lastSubmission := 0, cleanupStats := {}, config := cfg }

/-- The pending entry `SubmitURLs` appends for one URL. -/
def pendingEntry (now : Int) (url : String) : FetchResult :=
  { URL := url, Status := "pending", CreatedAt := now }

/-- `SubmitURLs`: records the submission timestamp and appends one pending
entry per URL in order. (`time.Now()` is read twice in the source, here both
reads are the parameter `now`; the concurrent fetches it launches are modelled
as later `updateResult` calls.) -/
def FetchService.SubmitURLs (fs : FetchService) (urls : List String) (now : Int) : FetchService :=
  { fs with lastSubmission := now,
            results := fs.results ++ urls.map (pendingEntry now) }

/-- `updateResult`: if `index >= 0 && index < len(fs.results)`, overwrite the
entry at `index` with `result`, forcing `result.CreatedAt` back to the stored
entry's original value; otherwise do nothing. -/
def FetchService.updateResult (fs : FetchService) (index : Int) (result : FetchResult) :
    FetchService :=
  if 0 ≤ index ∧ index < (fs.results.length : Int) then
    match fs.results.get? index.toNat with
    | some old =>
        { fs with results := fs.results.set index.toNat { result with CreatedAt := old.CreatedAt } }
    | none => fs
  else fs

/-- Snapshot shape, mirroring `models.FetchResponse`. -/
structure FetchResponse where
  TotalURLs : Int
  SuccessCount : Int
  FailedCount : Int
  PendingCount : Int
  Results : List FetchResult
  LastSubmission : Int
deriving DecidableEq

/-- The body of the statistics loop in `GetResults` (the Go `switch` on
`result.Status` with no default case). -/
def respStep (resp : FetchResponse) (result : FetchResult) : FetchResponse :=
  if result.Status = "success" then { resp with SuccessCount := resp.SuccessCount + 1 }
  else if result.Status = "failed" then { resp with FailedCount := resp.FailedCount + 1 }
  else if result.Status = "pending" then { resp with PendingCount := resp.PendingCount + 1 }
  else resp

/-- `GetResults`: copies the entries and derives the counters by scanning. -/
def FetchService.GetResults (fs : FetchService) : FetchResponse :=
  fs.results.foldl respStep
    { TotalURLs := (fs.results.length : Int), SuccessCount := 0, FailedCount := 0,
      PendingCount := 0, Results := fs.results, LastSubmission := fs.lastSubmission }

/-- `ClearAllResults`: returns the prior count, empties the slice, folds the
count into `TotalCleaned` and zeroes `ResultsInMemory` (leaving `LastCleanup`
and `CleanupCount` alone). -/
def FetchService.ClearAllResults (fs : FetchService) : Int × FetchService :=
  let count := (fs.results.length : Int)
  (count,
    { fs with results := [],
              cleanupStats := { fs.cleanupStats with
                TotalCleaned := fs.cleanupStats.TotalCleaned + count,
                ResultsInMemory := 0 } })

/-- The TTL pass of `cleanupOldResults`: keep each entry whose age
`now - CreatedAt` is strictly below the TTL, count the removals. -/
def sweepTTL (ttl now : Int) : List FetchResult → List FetchResult × Int
  | [] => ([], 0)
  | r :: rest =>
    let p := sweepTTL ttl now rest
    if now - r.CreatedAt < ttl then (r :: p.1, p.2) else (p.1, p.2 + 1)

/-- The capacity pass of `cleanupOldResults`: if more than `maxR` entries
remain, drop the oldest surplus (`newResults[excess:]`) and add the surplus to
the removal count. -/
def capExcess (maxR : Int) (newResults : List FetchResult) (cleaned : Int) :
    List FetchResult × Int :=
  if (newResults.length : Int) > maxR then
    (newResults.drop ((newResults.length : Int) - maxR).toNat,
      cleaned + ((newResults.length : Int) - maxR))
  else (newResults, cleaned)

/-- `cleanupOldResults`: TTL pass, then capacity pass, then — only if anything
was removed — install the new slice and update all four stats fields. -/
def FetchService.cleanupOldResults (fs : FetchService) (now : Int) : FetchService :=
  let p := sweepTTL fs.config.ResultTTL now fs.results
  let q := capExcess fs.config.MaxResultsInMemory p.1 p.2
  if q.2 > 0 then
    { fs with results := q.1,
              cleanupStats :=
                { LastCleanup := now,
                  TotalCleaned := fs.cleanupStats.TotalCleaned + q.2,
                  CleanupCount := fs.cleanupStats.CleanupCount + 1,
                  ResultsInMemory := (q.1.length : Int) } }
  else fs

/-- C3: an in-range `updateResult` stores the given outcome at that index with
its `CreatedAt` overwritten by the `CreatedAt` the entry had before the update,
so an entry's `CreatedAt` stays the timestamp assigned at creation across its
pending write and its terminal write. -/
theorem updateResult_preserves_CreatedAt (fs : FetchService) (index : Int)
    (result old : FetchResult) (h0 : 0 ≤ index)
    (hold : fs.results.get? index.toNat = some old) :
    (fs.updateResult index result).results.get? index.toNat =
      some { result with CreatedAt := old.CreatedAt } := by
  have hlt : index.toNat < fs.results.length := List.get?_eq_some.mp hold |>.1
  have hcond : 0 ≤ index ∧ index < (fs.results.length : Int) := ⟨h0, by omega⟩
  unfold FetchService.updateResult
  rw [if_pos hcond, hold]
  exact List.get?_set_eq_of_lt _ hlt

/-- Witness for C3: a one-entry store created at time 42, updated with an
outcome carrying CreatedAt 99, reads back the outcome with CreatedAt 42. -/
theorem updateResult_preserves_CreatedAt_witness :
    (FetchService.updateResult
        ⟨[{ URL := "a", Status := "pending", CreatedAt := 42 }], 0, {}, ⟨5, 10, 100, 50, 7, 3⟩⟩
        0 { URL := "a", Status := "success", CreatedAt := 99 }).results.get? 0 =
      some { URL := "a", Status := "success", CreatedAt := 42 } := by
  have h := updateResult_preserves_CreatedAt
    ⟨[{ URL := "a", Status := "pending", CreatedAt := 42 }], 0, {}, ⟨5, 10, 100, 50, 7, 3⟩⟩
    0 { URL := "a", Status := "success", CreatedAt := 99 }
    { URL := "a", Status := "pending", CreatedAt := 42 } (by decide) rfl
  simpa using h

/-- C9: for an index outside `[0, len(results))`, `updateResult` is a no-op:
no panic, every stored entry and the store length unchanged, so a fetch task
whose captured position was invalidated never writes out of bounds. -/
theorem updateResult_out_of_range (fs : FetchService) (index : Int) (result : FetchResult)
    (h : index < 0 ∨ (fs.results.length : Int) ≤ index) :
    fs.updateResult index result = fs := by
  unfold FetchService.updateResult
  rw [if_neg]
  rintro ⟨h1, h2⟩
  omega

/-- Witness for C9: updating index 5 of a one-entry store changes nothing. -/
theorem updateResult_out_of_range_witness :
    FetchService.updateResult
        ⟨[{ URL := "a", Status := "pending", CreatedAt := 42 }], 0, {}, ⟨5, 10, 100, 50, 7, 3⟩⟩
        5 { URL := "b", Status := "success" } =
      ⟨[{ URL := "a", Status := "pending", CreatedAt := 42 }], 0, {}, ⟨5, 10, 100, 50, 7, 3⟩⟩ :=
  updateResult_out_of_range _ 5 _ (Or.inr (by decide))

/-- C6: `ClearAllResults` returns the prior entry count, leaves the store
empty — a subsequent `GetResults` snapshot reports all four counts zero — adds
the count to `TotalCleaned`, and sets `ResultsInMemory` to 0. -/
theorem ClearAllResults_spec (fs : FetchService) :
    (fs.ClearAllResults).1 = (fs.results.length : Int) ∧
    (fs.ClearAllResults).2.results = [] ∧
    ((fs.ClearAllResults).2.GetResults).TotalURLs = 0 ∧
    ((fs.ClearAllResults).2.GetResults).SuccessCount = 0 ∧
    ((fs.ClearAllResults).2.GetResults).FailedCount = 0 ∧
    ((fs.ClearAllResults).2.GetResults).PendingCount = 0 ∧
    (fs.ClearAllResults).2.cleanupStats.TotalCleaned =
      fs.cleanupStats.TotalCleaned + (fs.results.length : Int) ∧
    (fs.ClearAllResults).2.cleanupStats.ResultsInMemory = 0 := by
  refine ⟨rfl, rfl, rfl, rfl, rfl, rfl, rfl, rfl⟩

/-- The TTL keep condition as a Boolean predicate (`age < fs.config.ResultTTL`). -/
def ttlKeep (ttl now : Int) (r : FetchResult) : Bool :=
  now - r.CreatedAt < ttl

lemma sweepTTL_fst (ttl now : Int) (l : List FetchResult) :
    (sweepTTL ttl now l).1 = l.filter (ttlKeep ttl now) := by
  induction l with
  | nil => rfl
  | cons r rest ih =>
    by_cases h : now - r.CreatedAt < ttl
    · simp [sweepTTL, List.filter, ttlKeep, h, ih]
    · simp [sweepTTL, List.filter, ttlKeep, h, ih]

lemma sweepTTL_snd (ttl now : Int) (l : List FetchResult) :
    (sweepTTL ttl now l).2 = (l.length : Int) - ((sweepTTL ttl now l).1.length : Int) := by
  induction l with
  | nil => rfl
  | cons r rest ih =>
    by_cases h : now - r.CreatedAt < ttl
    · simp only [sweepTTL, if_pos h, List.length_cons]
      push_cast
      omega
    · simp only [sweepTTL, if_neg h, List.length_cons]
      push_cast
      omega

lemma sweepTTL_fst_length_le (ttl now : Int) (l : List FetchResult) :
    (sweepTTL ttl now l).1.length ≤ l.length := by
  rw [sweepTTL_fst]
  exact List.length_filter_le _ l

lemma sweepTTL_snd_nonneg (ttl now : Int) (l : List FetchResult) :
    0 ≤ (sweepTTL ttl now l).2 := by
  rw [sweepTTL_snd]
  have := sweepTTL_fst_length_le ttl now l
  omega

lemma sweepTTL_fst_sublist (ttl now : Int) (l : List FetchResult) :
    List.Sublist (sweepTTL ttl now l).1 l := by
  rw [sweepTTL_fst]
  exact List.filter_sublist l

lemma mem_sweepTTL_fst (ttl now : Int) (l : List FetchResult) (r : FetchResult)
    (h : r ∈ (sweepTTL ttl now l).1) : now - r.CreatedAt < ttl := by
  rw [sweepTTL_fst] at h
  have := (List.mem_filter.mp h).2
  simpa [ttlKeep] using this

/-- C5: a cleanup sweep removes every pre-existing entry whose age exceeds the
TTL — after the sweep no remaining entry has age > TTL — and the retained
entries keep their relative insertion order (they form a sublist). -/
theorem cleanup_removes_expired (fs : FetchService) (now : Int) :
    List.Sublist (fs.cleanupOldResults now).results fs.results ∧
    ∀ r ∈ (fs.cleanupOldResults now).results, now - r.CreatedAt ≤ fs.config.ResultTTL := by
  simp only [FetchService.cleanupOldResults]
  by_cases hq : (capExcess fs.config.MaxResultsInMemory
      (sweepTTL fs.config.ResultTTL now fs.results).1
      (sweepTTL fs.config.ResultTTL now fs.results).2).2 > 0
  · rw [if_pos hq]
    have hsub1 : List.Sublist
        (capExcess fs.config.MaxResultsInMemory
          (sweepTTL fs.config.ResultTTL now fs.results).1
          (sweepTTL fs.config.ResultTTL now fs.results).2).1
        (sweepTTL fs.config.ResultTTL now fs.results).1 := by
      unfold capExcess
      by_cases hc : ((sweepTTL fs.config.ResultTTL now fs.results).1.length : Int) >
          fs.config.MaxResultsInMemory
      · rw [if_pos hc]
        exact List.drop_sublist _ _
      · rw [if_neg hc]
    constructor
    · exact hsub1.trans (sweepTTL_fst_sublist _ _ _)
    · intro r hr
      have hr1 := hsub1.subset hr
      have := mem_sweepTTL_fst _ _ _ _ hr1
      omega
  · rw [if_neg hq]
    refine ⟨List.Sublist.refl _, ?_⟩
    have hp2 : (sweepTTL fs.config.ResultTTL now fs.results).2 = 0 := by
      have hnn := sweepTTL_snd_nonneg fs.config.ResultTTL now fs.results
      unfold capExcess at hq
      by_cases hc : ((sweepTTL fs.config.ResultTTL now fs.results).1.length : Int) >
          fs.config.MaxResultsInMemory
      · rw [if_pos hc] at hq
        simp only [not_lt] at hq
        omega
      · rw [if_neg hc] at hq
        simp only [not_lt] at hq
        omega
    have hlen : (sweepTTL fs.config.ResultTTL now fs.results).1.length = fs.results.length := by
      have := sweepTTL_snd fs.config.ResultTTL now fs.results
      omega
    have heq : fs.results.filter (ttlKeep fs.config.ResultTTL now) = fs.results := by
      apply List.Sublist.eq_of_length
      · rw [← sweepTTL_fst]
        exact sweepTTL_fst_sublist _ _ _
      · rw [← sweepTTL_fst]
        exact hlen
    intro r hr
    have := List.filter_eq_self.mp heq r hr
    have h2 : now - r.CreatedAt < fs.config.ResultTTL := by simpa [ttlKeep] using this
    omega

/-- C8: a sweep in which every entry's age is within the TTL and the count does
not exceed the capacity ceiling removes nothing and leaves the entry list and
all four `CleanupStats` fields unchanged (the whole state is untouched). -/
theorem cleanup_noop (fs : FetchService) (now : Int)
    (hAll : ∀ r ∈ fs.results, now - r.CreatedAt < fs.config.ResultTTL)
    (hLen : (fs.results.length : Int) ≤ fs.config.MaxResultsInMemory) :
    fs.cleanupOldResults now = fs := by
  have hfst : (sweepTTL fs.config.ResultTTL now fs.results).1 = fs.results := by
    rw [sweepTTL_fst]
    apply List.filter_eq_self.mpr
    intro r hr
    simpa [ttlKeep] using hAll r hr
  have hsnd : (sweepTTL fs.config.ResultTTL now fs.results).2 = 0 := by
    rw [sweepTTL_snd, hfst]
    omega
  simp only [FetchService.cleanupOldResults]
  rw [if_neg]
  unfold capExcess
  rw [hfst, hsnd, if_neg (by omega)]
  omega

/-- Witness for C8: a two-entry store, both entries fresh, below capacity:
the sweep is the identity. -/
theorem cleanup_noop_witness :
    FetchService.cleanupOldResults
        ⟨[{ URL := "a", Status := "success", CreatedAt := 90 },
          { URL := "b", Status := "pending", CreatedAt := 95 }], 0,
          ⟨1, 2, 3, 4⟩, ⟨5, 10, 100, 50, 7, 3⟩⟩ 100 =
      ⟨[{ URL := "a", Status := "success", CreatedAt := 90 },
        { URL := "b", Status := "pending", CreatedAt := 95 }], 0,
        ⟨1, 2, 3, 4⟩, ⟨5, 10, 100, 50, 7, 3⟩⟩ :=
  cleanup_noop _ 100 (by decide) (by decide)

/-- C4: when the entries surviving the TTL pass still exceed the capacity
ceiling C (and CreatedAt is nondecreasing in insertion order, as SubmitURLs
produces), the sweep retains exactly the C most-recently-created entries — the
final C entries of the TTL-filtered list — and adds the exact total discard
count (TTL-expired plus surplus, i.e. original length minus C) to
`TotalCleaned`. -/
theorem cleanup_capacity (fs : FetchService) (now : Int)
    (hmono : List.Pairwise (fun a b : FetchResult => a.CreatedAt ≤ b.CreatedAt) fs.results)
    (hC : 0 ≤ fs.config.MaxResultsInMemory)
    (hover : fs.config.MaxResultsInMemory <
      ((sweepTTL fs.config.ResultTTL now fs.results).1.length : Int)) :
    (fs.cleanupOldResults now).results =
      (sweepTTL fs.config.ResultTTL now fs.results).1.drop
        (((sweepTTL fs.config.ResultTTL now fs.results).1.length : Int) -
          fs.config.MaxResultsInMemory).toNat ∧
    ((fs.cleanupOldResults now).results.length : Int) = fs.config.MaxResultsInMemory ∧
    (fs.cleanupOldResults now).cleanupStats.TotalCleaned =
      fs.cleanupStats.TotalCleaned + ((fs.results.length : Int) - fs.config.MaxResultsInMemory) := by
  have hsnd := sweepTTL_snd fs.config.ResultTTL now fs.results
  have hnn := sweepTTL_snd_nonneg fs.config.ResultTTL now fs.results
  have hcap : capExcess fs.config.MaxResultsInMemory
      (sweepTTL fs.config.ResultTTL now fs.results).1
      (sweepTTL fs.config.ResultTTL now fs.results).2 =
      ((sweepTTL fs.config.ResultTTL now fs.results).1.drop
          (((sweepTTL fs.config.ResultTTL now fs.results).1.length : Int) -
            fs.config.MaxResultsInMemory).toNat,
        (sweepTTL fs.config.ResultTTL now fs.results).2 +
          (((sweepTTL fs.config.ResultTTL now fs.results).1.length : Int) -
            fs.config.MaxResultsInMemory)) := by
    unfold capExcess
    rw [if_pos (by omega)]
  simp only [FetchService.cleanupOldResults, hcap]
  rw [if_pos (by omega)]
  refine ⟨rfl, ?_, ?_⟩
  · simp only [List.length_drop]
    push_cast
    omega
  · simp only
    omega

/-- Witness for C4: four entries created at 0, 100, 120, 130; TTL 100 at sweep
time 150 expires the first; capacity 2 then drops the entry created at 100,
retaining the two most recent; TotalCleaned rises by 2 (= 4 - 2). -/
theorem cleanup_capacity_witness :
    (FetchService.cleanupOldResults
        ⟨[{ URL := "a", CreatedAt := 0 }, { URL := "b", CreatedAt := 100 },
          { URL := "c", CreatedAt := 120 }, { URL := "d", CreatedAt := 130 }], 0,
          ⟨1, 2, 3, 4⟩, ⟨5, 10, 100, 100, 7, 2⟩⟩ 150).results =
      (sweepTTL 100 150
        [{ URL := "a", CreatedAt := 0 }, { URL := "b", CreatedAt := 100 },
         { URL := "c", CreatedAt := 120 }, { URL := "d", CreatedAt := 130 }]).1.drop 1 ∧
    ((FetchService.cleanupOldResults
        ⟨[{ URL := "a", CreatedAt := 0 }, { URL := "b", CreatedAt := 100 },
          { URL := "c", CreatedAt := 120 }, { URL := "d", CreatedAt := 130 }], 0,
          ⟨1, 2, 3, 4⟩, ⟨5, 10, 100, 100, 7, 2⟩⟩ 150).results.length : Int) = 2 ∧
    (FetchService.cleanupOldResults
        ⟨[{ URL := "a", CreatedAt := 0 }, { URL := "b", CreatedAt := 100 },
          { URL := "c", CreatedAt := 120 }, { URL := "d", CreatedAt := 130 }], 0,
          ⟨1, 2, 3, 4⟩, ⟨5, 10, 100, 100, 7, 2⟩⟩ 150).cleanupStats.TotalCleaned = 2 + 2 := by
  have h := cleanup_capacity
    ⟨[{ URL := "a", CreatedAt := 0 }, { URL := "b", CreatedAt := 100 },
      { URL := "c", CreatedAt := 120 }, { URL := "d", CreatedAt := 130 }], 0,
      ⟨1, 2, 3, 4⟩, ⟨5, 10, 100, 100, 7, 2⟩⟩ 150
    (by decide) (by decide) (by decide)
  simpa using h

/-- The statuses a stored entry can carry: "pending" is written by
`SubmitURLs`; "success" and "failed" are the only statuses any `updateResult`
call site in `fetchURL` passes. -/
def statusOK (r : FetchResult) : Prop :=
  r.Status = "pending" ∨ r.Status = "success" ∨ r.Status = "failed"

/-- A fetch task's outcome: every `updateResult` call in `fetchURL` carries
Status "failed" (empty URL, request-creation failure, transport or timeout
failure, read failure, oversized body) or "success". -/
def fetchOutcome (r : FetchResult) : Prop :=
  r.Status = "success" ∨ r.Status = "failed"

/-- Store states reachable through the public operations: construction,
`SubmitURLs`, the fetch tasks' `updateResult` writes, `cleanupOldResults`
sweeps, and `ClearAllResults`. -/
inductive Reachable : FetchService → Prop where
  | init (cfg : Config) : Reachable (NewFetchService cfg)
  | submit (fs : FetchService) (urls : List String) (now : Int) :
      Reachable fs → Reachable (fs.SubmitURLs urls now)
  | update (fs : FetchService) (index : Int) (result : FetchResult) :
      fetchOutcome result → Reachable fs → Reachable (fs.updateResult index result)
  | cleanup (fs : FetchService) (now : Int) :
      Reachable fs → Reachable (fs.cleanupOldResults now)
  | clear (fs : FetchService) :
      Reachable fs → Reachable (fs.ClearAllResults).2

lemma reachable_statusOK (fs : FetchService) (h : Reachable fs) :
    ∀ r ∈ fs.results, statusOK r := by
  induction h with
  | init cfg => simp [NewFetchService]
  | submit fs urls now hfs ih =>
    intro r hr
    simp only [FetchService.SubmitURLs, List.mem_append, List.mem_map] at hr
    rcases hr with hr | ⟨u, _, rfl⟩
    · exact ih r hr
    · left
      rfl
  | update fs index result hout hfs ih =>
    intro r hr
    unfold FetchService.updateResult at hr
    by_cases hcond : 0 ≤ index ∧ index < (fs.results.length : Int)
    · rw [if_pos hcond] at hr
      rcases hget : fs.results.get? index.toNat with _ | old
      · rw [hget] at hr
        exact ih r hr
      · rw [hget] at hr
        simp only at hr
        rcases List.mem_or_eq_of_mem_set hr with hmem | rfl
        · exact ih r hmem
        · rcases hout with hs | hf
          · right
            left
            exact hs
          · right
            right
            exact hf
    · rw [if_neg hcond] at hr
      exact ih r hr
  | cleanup fs now hfs ih =>
    intro r hr
    exact ih r ((cleanup_removes_expired fs now).1.subset hr)
  | clear fs hfs ih =>
    intro r hr
    simp [FetchService.ClearAllResults] at hr

lemma foldl_respStep_TotalURLs (l : List FetchResult) (resp : FetchResponse) :
    (l.foldl respStep resp).TotalURLs = resp.TotalURLs := by
  induction l generalizing resp with
  | nil => rfl
  | cons r rest ih =>
    rw [List.foldl_cons, ih]
    unfold respStep
    by_cases h1 : r.Status = "success"
    · rw [if_pos h1]
    · rw [if_neg h1]
      by_cases h2 : r.Status = "failed"
      · rw [if_pos h2]
      · rw [if_neg h2]
        by_cases h3 : r.Status = "pending"
        · rw [if_pos h3]
        · rw [if_neg h3]

lemma foldl_respStep_counts (l : List FetchResult) (resp : FetchResponse)
    (h : ∀ r ∈ l, statusOK r) :
    (l.foldl respStep resp).SuccessCount + (l.foldl respStep resp).FailedCount +
      (l.foldl respStep resp).PendingCount =
    resp.SuccessCount + resp.FailedCount + resp.PendingCount + (l.length : Int) := by
  induction l generalizing resp with
  | nil => simp
  | cons r rest ih =>
    have hr := h r (List.mem_cons_self r rest)
    have hrest : ∀ x ∈ rest, statusOK x := fun x hx => h x (List.mem_cons_of_mem r hx)
    rw [List.foldl_cons, ih _ hrest]
    have hstep : (respStep resp r).SuccessCount + (respStep resp r).FailedCount +
        (respStep resp r).PendingCount =
        resp.SuccessCount + resp.FailedCount + resp.PendingCount + 1 := by
      rcases hr with hp | hs | hf
      · simp [respStep, hp]
        ring
      · simp [respStep, hs]
        ring
      · simp [respStep, hf]
        ring
    rw [hstep]
    simp only [List.length_cons]
    push_cast
    ring

/-- C2: in every store state reachable through the public operations, the
snapshot satisfies total = success + failed + pending — every stored entry's
status is one of "pending", "success", "failed", so none is dropped from or
double-counted in the three counters. -/
theorem snapshot_counts_consistent (fs : FetchService) (h : Reachable fs) :
    (fs.GetResults).TotalURLs =
      (fs.GetResults).SuccessCount + (fs.GetResults).FailedCount +
        (fs.GetResults).PendingCount ∧
    ∀ r ∈ fs.results, statusOK r := by
  have hst := reachable_statusOK fs h
  refine ⟨?_, hst⟩
  unfold FetchService.GetResults
  rw [foldl_respStep_TotalURLs, foldl_respStep_counts _ _ hst]
  simp

/-- Witness for C2: a concrete reachable state — two URLs submitted, index 0
then completed with a success outcome — satisfies the count identity. -/
theorem snapshot_counts_consistent_witness :
    ((((NewFetchService ⟨5, 10, 100, 50, 7, 3⟩).SubmitURLs ["a", "b"] 1).updateResult 0
        { URL := "a", Status := "success", StatusCode := 200 }).GetResults).TotalURLs =
      ((((NewFetchService ⟨5, 10, 100, 50, 7, 3⟩).SubmitURLs ["a", "b"] 1).updateResult 0
        { URL := "a", Status := "success", StatusCode := 200 }).GetResults).SuccessCount +
      ((((NewFetchService ⟨5, 10, 100, 50, 7, 3⟩).SubmitURLs ["a", "b"] 1).updateResult 0
        { URL := "a", Status := "success", StatusCode := 200 }).GetResults).FailedCount +
      ((((NewFetchService ⟨5, 10, 100, 50, 7, 3⟩).SubmitURLs ["a", "b"] 1).updateResult 0
        { URL := "a", Status := "success", StatusCode := 200 }).GetResults).PendingCount :=
  (snapshot_counts_consistent _
    (Reachable.update _ 0 _ (Or.inl rfl)
      (Reachable.submit _ ["a", "b"] 1 (Reachable.init ⟨5, 10, 100, 50, 7, 3⟩)))).1

/-- An HTTP response as seen by `fetchURL` after `clientWithRedirectTracking.Do`
succeeds: the status code, the full body bytes the server would deliver, and
the post-redirect URL (`resp.Request.URL.String()`). Bytes are modelled as
characters. -/
structure HttpResponse where
  StatusCode : Int
  body : List Char
  finalURL : String
deriving DecidableEq

/-- `io.ReadAll(io.LimitReader(resp.Body, maxContentSize))`: at most
`maxContentSize` bytes are read (a non-positive limit reads nothing). -/
def readLimitedBody (maxContentSize : Int) (resp : HttpResponse) : List Char :=
  resp.body.take maxContentSize.toNat

/-- The tail of `fetchURL` once a response has been received: body read
(`readErr` is the read error, if any), size-cap check, then the recorded
outcome. `dur` stands for `time.Since(startTime).String()` and `fetchedAt` for
the completion `time.Now()`. -/
def fetchProcessResponse (cfg : Config) (url : String) (resp : HttpResponse)
    (readErr : Option String) (redirectCount : Int) (dur : String) (fetchedAt : Int) :
    FetchResult :=
  match readErr with
  | some e =>
      { URL := url, Status := "failed", StatusCode := resp.StatusCode,
        Error := "Failed to read response body: " ++ e,
        Duration := dur, FinalURL := resp.finalURL, RedirectCount := redirectCount }
  | none =>
      let body := readLimitedBody cfg.MaxContentSize resp
      if (body.length : Int) ≥ cfg.MaxContentSize then
        { URL := url, Status := "failed", StatusCode := resp.StatusCode,
          Error := "Response body too large (exceeds " ++ toString cfg.MaxContentSize ++ " bytes)",
          Duration := dur, FinalURL := resp.finalURL, RedirectCount := redirectCount }
      else
        { URL := url, Status := "success", Content := String.mk body,
          ContentLength := (body.length : Int), StatusCode := resp.StatusCode,
          FetchedAt := fetchedAt, Duration := dur, FinalURL := resp.finalURL,
          RedirectCount := redirectCount }

/-- C7: when a response is received and the available body is at least the cap
`MaxContentSize` — so the bytes read through the limited reader reach the cap —
the recorded outcome is failed with the "body too large" error, and it still
carries the observed status code and the redirect count taken so far. -/
theorem fetch_body_too_large (cfg : Config) (url : String) (resp : HttpResponse)
    (redirectCount : Int) (dur : String) (fetchedAt : Int)
    (hcap : cfg.MaxContentSize ≤ (resp.body.length : Int)) :
    (fetchProcessResponse cfg url resp none redirectCount dur fetchedAt).Status = "failed" ∧
    (fetchProcessResponse cfg url resp none redirectCount dur fetchedAt).Error =
      "Response body too large (exceeds " ++ toString cfg.MaxContentSize ++ " bytes)" ∧
    (fetchProcessResponse cfg url resp none redirectCount dur fetchedAt).StatusCode =
      resp.StatusCode ∧
    (fetchProcessResponse cfg url resp none redirectCount dur fetchedAt).RedirectCount =
      redirectCount := by
  have hlen : ((readLimitedBody cfg.MaxContentSize resp).length : Int) ≥ cfg.MaxContentSize := by
    unfold readLimitedBody
    rw [List.length_take]
    omega
  unfold fetchProcessResponse
  simp only [if_pos hlen]
  simp

/-- Witness for C7: a 5-byte body against a 3-byte cap yields a failed outcome
with the size error, status code 200 and redirect count 2 intact. -/
theorem fetch_body_too_large_witness :
    (fetchProcessResponse ⟨5, 10, 3, 50, 7, 100⟩ "http:_a" ⟨200, ['h', 'e', 'l', 'l', 'o'], "http:_a"⟩
        none 2 "1ms" 9).Status = "failed" ∧
    (fetchProcessResponse ⟨5, 10, 3, 50, 7, 100⟩ "http:_a" ⟨200, ['h', 'e', 'l', 'l', 'o'], "http:_a"⟩
        none 2 "1ms" 9).Error = "Response body too large (exceeds 3 bytes)" ∧
    (fetchProcessResponse ⟨5, 10, 3, 50, 7, 100⟩ "http:_a" ⟨200, ['h', 'e', 'l', 'l', 'o'], "http:_a"⟩
        none 2 "1ms" 9).StatusCode = 200 ∧
    (fetchProcessResponse ⟨5, 10, 3, 50, 7, 100⟩ "http:_a" ⟨200, ['h', 'e', 'l', 'l', 'o'], "http:_a"⟩
        none 2 "1ms" 9).RedirectCount = 2 := by
  have h := fetch_body_too_large ⟨5, 10, 3, 50, 7, 100⟩ "http:_a"
    ⟨200, ['h', 'e', 'l', 'l', 'o'], "http:_a"⟩ 2 "1ms" 9 (by decide)
  simpa using h

lemma Allow_step_allowed (rl : RateLimiter) (ip : String) (v : Visitor) (t t₁ : Int) (R B k : Nat)
    (hrate : rl.rate = (R : Int)) (hburst : rl.burst = (B : Int))
    (hlook : lookupVisitor rl.visitors ip = some v)
    (hws : v.windowStart = t₁) (hrc : v.requestCount = (k : Int))
    (htok : (B : Int) - (k : Int) ≤ v.tokens)
    (ht1 : t₁ ≤ t) (ht2 : t - t₁ ≤ rl.window)
    (hkR : k < R) (hRB : R ≤ B) :
    ∃ v' : Visitor,
      rl.Allow ip t = (true, { rl with visitors := setVisitor rl.visitors ip v' }) ∧
      v'.windowStart = t₁ ∧ v'.requestCount = ((k + 1 : Nat) : Int) ∧
      (B : Int) - ((k + 1 : Nat) : Int) ≤ v'.tokens := by
  have hadd : 0 ≤ rl.tokensToAdd (t - v.windowStart) := by
    unfold RateLimiter.tokensToAdd
    split
    · refine Int.tdiv_nonneg ?_ (by omega)
      have hb : (0 : Int) ≤ rl.burst := by rw [hburst]; positivity
      have he : (0 : Int) ≤ t - v.windowStart := by omega
      exact mul_nonneg he hb
    · rw [hburst]
      positivity
  have hmin : 0 < minInt (v.tokens + rl.tokensToAdd (t - v.windowStart)) rl.burst := by
    unfold minInt
    split
    · omega
    · rw [hburst]
      omega
  refine ⟨⟨minInt (v.tokens + rl.tokensToAdd (t - v.windowStart)) rl.burst - 1, t,
    v.windowStart, v.requestCount + 1⟩, ?_, hws, ?_, ?_⟩
  · simp only [RateLimiter.Allow, hlook]
    rw [if_neg (by omega : ¬ t - v.windowStart > rl.window)]
    rw [if_neg (by omega : ¬ v.requestCount ≥ rl.rate)]
    rw [if_pos hmin]
  · show v.requestCount + 1 = ((k + 1 : Nat) : Int)
    omega
  · show (B : Int) - ((k + 1 : Nat) : Int) ≤
      minInt (v.tokens + rl.tokensToAdd (t - v.windowStart)) rl.burst - 1
    unfold minInt
    split
    · omega
    · rw [hburst]
      omega

lemma Allow_step_denied (rl : RateLimiter) (ip : String) (v : Visitor) (t : Int)
    (hlook : lookupVisitor rl.visitors ip = some v)
    (ht2 : t - v.windowStart ≤ rl.window)
    (hrc : rl.rate ≤ v.requestCount) :
    (rl.Allow ip t).1 = false := by
  simp only [RateLimiter.Allow, hlook]
  rw [if_neg (by omega : ¬ t - v.windowStart > rl.window)]
  rw [if_pos hrc]

lemma allowTrace_cap_aux (R B : Nat) (W t₁ : Int) (ip : String) (hRB : R ≤ B) :
    ∀ (us : List Int) (k : Nat) (rl : RateLimiter) (v : Visitor),
      rl.rate = (R : Int) → rl.burst = (B : Int) → rl.window = W →
      lookupVisitor rl.visitors ip = some v →
      v.windowStart = t₁ → v.requestCount = (k : Int) →
      (B : Int) - (k : Int) ≤ v.tokens →
      1 ≤ k → k ≤ R → k + us.length = R + 1 →
      (∀ t ∈ us, t₁ ≤ t ∧ t - t₁ ≤ W) →
      allowTrace rl ip us = List.replicate (R - k) true ++ [false] := by
  intro us
  induction us with
  | nil =>
    intro k rl v _ _ _ _ _ _ _ _ hkR hlen _
    simp only [List.length_nil] at hlen
    omega
  | cons u us ih =>
    intro k rl v hrate hburst hwin hlook hws hrc htok hk1 hkR hlen hin
    rcases Nat.lt_or_ge k R with hkR' | hkR''
    · obtain ⟨v', heq, hws', hrc', htok'⟩ :=
        Allow_step_allowed rl ip v u t₁ R B k hrate hburst hlook hws hrc htok
          (hin u (List.mem_cons_self u us)).1
          (by rw [hwin]; exact (hin u (List.mem_cons_self u us)).2) hkR' hRB
      simp only [allowTrace, heq]
      have htail : allowTrace { rl with visitors := setVisitor rl.visitors ip v' } ip us =
          List.replicate (R - (k + 1)) true ++ [false] := by
        refine ih (k + 1) _ v' hrate hburst hwin (lookupVisitor_setVisitor _ _ _) hws' hrc'
          htok' (by omega) hkR' ?_ ?_
        · simp only [List.length_cons] at hlen
          omega
        · intro t ht
          exact hin t (List.mem_cons_of_mem u ht)
      rw [htail]
      have hrk : R - k = (R - (k + 1)) + 1 := by omega
      rw [hrk, List.replicate_succ, List.cons_append]
    · have hkeq : k = R := le_antisymm hkR hkR''
      have hus : us = [] := by
        simp only [List.length_cons] at hlen
        have : us.length = 0 := by omega
        exact List.eq_nil_of_length_eq_zero this
      subst hus
      have hdeny : (rl.Allow ip u).1 = false :=
        Allow_step_denied rl ip v u hlook
          (by have := (hin u (List.mem_cons_self u [])).2; omega)
          (by rw [hrate, hrc]; omega)
      simp [allowTrace, hdeny, hkeq]

/-- C1 (amended): for rate = R ≥ 1, burst = B with B ≥ R, and window = W, a
key issuing R `Allow` calls within one window is allowed on all R of them, and
the `(R+1)`th call within the same window is denied regardless of the elapsed
time inside the window. (The original claim, requiring only B ≥ 1, fails:
with B < R token exhaustion can deny one of the first R calls, as
`Allow_rate_window_counterexample` shows.) -/
theorem Allow_rate_window_cap (R B : Nat) (W t₁ : Int) (ip : String) (ts : List Int)
    (hR : 1 ≤ R) (hB : 1 ≤ B) (hRB : R ≤ B) (hlen : ts.length = R)
    (hin : ∀ t ∈ ts, t₁ ≤ t ∧ t - t₁ ≤ W) :
    allowTrace ⟨[], (R : Int), (B : Int), W⟩ ip (t₁ :: ts) =
      List.replicate R true ++ [false] := by
  have h1 : (⟨[], (R : Int), (B : Int), W⟩ : RateLimiter).Allow ip t₁ =
      (true, ⟨[(ip, ⟨(B : Int) - 1, t₁, t₁, 1⟩)], (R : Int), (B : Int), W⟩) := by
    simp [RateLimiter.Allow, lookupVisitor, setVisitor]
  simp only [allowTrace, h1]
  have h2 := allowTrace_cap_aux R B W t₁ ip hRB ts 1
    ⟨[(ip, ⟨(B : Int) - 1, t₁, t₁, 1⟩)], (R : Int), (B : Int), W⟩
    ⟨(B : Int) - 1, t₁, t₁, 1⟩ rfl rfl rfl (by simp [lookupVisitor]) rfl rfl
    (by push_cast; omega) le_rfl hR (by omega) hin
  rw [h2]
  have h3 : List.replicate R true = true :: List.replicate (R - 1) true := by
    conv_lhs => rw [show R = (R - 1) + 1 by omega]
    rw [List.replicate_succ]
  rw [h3, List.cons_append]

/-- Witness for C1 (amended) with R = 2, B = 2, W = 1s: calls at 0, then at
500 and 999999999 nanoseconds inside the window, give [true, true, false]. -/
theorem Allow_rate_window_cap_witness :
    allowTrace ⟨[], 2, 2, 1000000000⟩ "client" [0, 500, 999999999] =
      List.replicate 2 true ++ [false] := by
  have h := Allow_rate_window_cap 2 2 1000000000 0 "client" [500, 999999999]
    (by decide) (by decide) (by decide) (by decide) (by decide)
  simpa using h
